import Mathlib

/-!
Verification of the relay-selection / streaming-merge / search pipeline of
`src/src/routes/+page.svelte` (SnowCait/user-notes-search), shallowly embedded
in Lean 4.  JS strings are embedded as `List Char` where index arithmetic
matters and as `String` where only equality is used; timestamps are `Int`;
fallible JS code (thrown exceptions) is embedded as `Except String`.
External collaborators (the nip19 codec, `URL.canParse`) are universally
quantified function parameters, following the spec's external-interface list.
-/

/-- A Nostr event as consumed by the page: the fields used by the code. -/
structure NostrEvent where
  id : String
  pubkey : String
  created_at : Int
  kind : Nat
  tags : List (List String)
  content : String
deriving DecidableEq

/-! ## Streaming Merge Engine (lines 145-147) -/

/-- Stable descending-by-timestamp insertion: the new event is placed after
every already-present event whose `created_at` is greater than or equal to
its own, so a tie keeps the existing order. -/
def insertDescStable : List NostrEvent → NostrEvent → List NostrEvent
  | [], ev => [ev]
  | x :: xs, ev =>
    if ev.created_at ≤ x.created_at then x :: insertDescStable xs ev
    else ev :: x :: xs

/-- Modelled from the spec: the page imports `insertEventIntoDescendingList`
from the external package `nostr-tools/utils`, whose implementation is not
part of this repository's sources.  The spec's Streaming Merge Engine section
describes its behaviour: reject the event if an identity-equal document is
already present in the feed; otherwise insert it at the position preserving
descending timestamp order, ties broken by keeping the existing order
(stable insert). -/
def insertEventIntoDescendingList (l : List NostrEvent) (ev : NostrEvent) : List NostrEvent :=
  if l.any (fun e => e.id == ev.id) then l else insertDescStable l ev

/-- The merge loop of `fetchEvents` (lines 145-147): starting from the empty
feed, fold every delivered event through `insertEventIntoDescendingList`. -/
def mergeFeed (seq : List NostrEvent) : List NostrEvent :=
  seq.foldl insertEventIntoDescendingList []

lemma mem_insertDescStable (l : List NostrEvent) (ev a : NostrEvent) :
    a ∈ insertDescStable l ev ↔ a = ev ∨ a ∈ l := by
  induction l with
  | nil => simp [insertDescStable]
  | cons x xs ih =>
    by_cases h : ev.created_at ≤ x.created_at
    · simp only [insertDescStable, if_pos h, List.mem_cons, ih]
      tauto
    · simp only [insertDescStable, if_neg h, List.mem_cons]

lemma insertDescStable_sorted (l : List NostrEvent) (ev : NostrEvent)
    (hs : l.Pairwise (fun a b => b.created_at ≤ a.created_at)) :
    (insertDescStable l ev).Pairwise (fun a b => b.created_at ≤ a.created_at) := by
  induction l with
  | nil => simp [insertDescStable]
  | cons x xs ih =>
    rw [List.pairwise_cons] at hs
    by_cases h : ev.created_at ≤ x.created_at
    · rw [insertDescStable, if_pos h, List.pairwise_cons]
      refine ⟨?_, ih hs.2⟩
      intro y hy
      rcases (mem_insertDescStable xs ev y).mp hy with rfl | hy'
      · exact h
      · exact hs.1 y hy'
    · push_neg at h
      rw [insertDescStable, if_neg (not_le.mpr h), List.pairwise_cons]
      refine ⟨?_, List.pairwise_cons.mpr hs⟩
      intro y hy
      rcases List.mem_cons.mp hy with rfl | hy'
      · exact le_of_lt h
      · exact le_trans (hs.1 y hy') (le_of_lt h)

lemma insertDescStable_nodup_ids (l : List NostrEvent) (ev : NostrEvent)
    (hnd : (l.map (fun e => e.id)).Nodup) (hid : ∀ e ∈ l, e.id ≠ ev.id) :
    ((insertDescStable l ev).map (fun e => e.id)).Nodup := by
  induction l with
  | nil => simp [insertDescStable]
  | cons x xs ih =>
    simp only [List.map_cons, List.nodup_cons] at hnd
    by_cases h : ev.created_at ≤ x.created_at
    · rw [insertDescStable, if_pos h]
      simp only [List.map_cons, List.nodup_cons]
      refine ⟨?_, ih hnd.2 (fun e he => hid e (List.mem_cons_of_mem x he))⟩
      intro hx
      rcases List.mem_map.mp hx with ⟨y, hy, hyid⟩
      rcases (mem_insertDescStable xs ev y).mp hy with rfl | hy'
      · exact hid x (List.mem_cons_self x xs) hyid.symm
      · exact hnd.1 (List.mem_map.mpr ⟨y, hy', hyid⟩)
    · rw [insertDescStable, if_neg h]
      simp only [List.map_cons, List.nodup_cons]
      refine ⟨?_, hnd.1, hnd.2⟩
      intro hev
      rcases List.mem_cons.mp hev with hx | hmem
      · exact hid x (List.mem_cons_self x xs) hx.symm
      · rcases List.mem_map.mp hmem with ⟨y, hy, hyid⟩
        exact hid y (List.mem_cons_of_mem x hy) hyid

/-- The feed invariant of the spec: descending timestamps, no duplicate ids. -/
def FeedInv (l : List NostrEvent) : Prop :=
  l.Pairwise (fun a b => b.created_at ≤ a.created_at) ∧ (l.map (fun e => e.id)).Nodup

lemma insertEvent_inv (l : List NostrEvent) (ev : NostrEvent) (h : FeedInv l) :
    FeedInv (insertEventIntoDescendingList l ev) := by
  unfold insertEventIntoDescendingList
  by_cases hany : l.any (fun e => e.id == ev.id)
  · rw [if_pos hany]; exact h
  · rw [if_neg hany]
    have hid : ∀ e ∈ l, e.id ≠ ev.id := by
      intro e he
      rw [List.any_eq_true] at hany
      intro hcontra
      exact hany ⟨e, he, beq_iff_eq.mpr hcontra⟩
    exact ⟨insertDescStable_sorted l ev h.1, insertDescStable_nodup_ids l ev h.2 hid⟩

lemma foldl_insert_inv (seq : List NostrEvent) :
    ∀ acc, FeedInv acc → FeedInv (seq.foldl insertEventIntoDescendingList acc) := by
  induction seq with
  | nil => intro acc h; simpa using h
  | cons x xs ih =>
    intro acc h
    rw [List.foldl_cons]
    exact ih _ (insertEvent_inv acc x h)

lemma mergeFeed_inv (seq : List NostrEvent) : FeedInv (mergeFeed seq) :=
  foldl_insert_inv seq [] ⟨List.Pairwise.nil, List.nodup_nil⟩

lemma insertEvent_mem_mono (l : List NostrEvent) (ev e : NostrEvent) (h : e ∈ l) :
    e ∈ insertEventIntoDescendingList l ev := by
  unfold insertEventIntoDescendingList
  by_cases hany : l.any (fun x => x.id == ev.id)
  · rw [if_pos hany]; exact h
  · rw [if_neg hany]; exact (mem_insertDescStable l ev e).mpr (Or.inr h)

lemma foldl_insert_mem_mono (seq : List NostrEvent) :
    ∀ acc e, e ∈ acc → e ∈ seq.foldl insertEventIntoDescendingList acc := by
  induction seq with
  | nil => intro acc e h; simpa using h
  | cons x xs ih =>
    intro acc e h
    rw [List.foldl_cons]
    exact ih _ e (insertEvent_mem_mono acc x e h)

lemma insertEvent_id_mem (l : List NostrEvent) (ev : NostrEvent) :
    ∃ e ∈ insertEventIntoDescendingList l ev, e.id = ev.id := by
  unfold insertEventIntoDescendingList
  by_cases hany : l.any (fun x => x.id == ev.id)
  · rw [if_pos hany]
    rw [List.any_eq_true] at hany
    obtain ⟨e, he, heq⟩ := hany
    exact ⟨e, he, beq_iff_eq.mp heq⟩
  · rw [if_neg hany]
    exact ⟨ev, (mem_insertDescStable l ev ev).mpr (Or.inl rfl), rfl⟩

lemma foldl_insert_id_present (seq : List NostrEvent) :
    ∀ acc d, d ∈ seq → ∃ e ∈ seq.foldl insertEventIntoDescendingList acc, e.id = d.id := by
  induction seq with
  | nil => intro acc d h; simp at h
  | cons x xs ih =>
    intro acc d h
    rw [List.foldl_cons]
    rcases List.mem_cons.mp h with rfl | h'
    · obtain ⟨e, he, heq⟩ := insertEvent_id_mem acc d
      exact ⟨e, foldl_insert_mem_mono xs _ e he, heq⟩
    · exact ih _ d h'

lemma mergeFeed_snoc (seq : List NostrEvent) (d : NostrEvent) :
    mergeFeed (seq ++ [d]) = insertEventIntoDescendingList (mergeFeed seq) d := by
  simp [mergeFeed, List.foldl_append]

lemma insertDescStable_decomp (l : List NostrEvent) (ev : NostrEvent)
    (hs : l.Pairwise (fun a b => b.created_at ≤ a.created_at)) :
    ∃ l1 l2, l = l1 ++ l2 ∧ insertDescStable l ev = l1 ++ ev :: l2 ∧
      (∀ x ∈ l1, ev.created_at ≤ x.created_at) ∧ (∀ x ∈ l2, x.created_at < ev.created_at) := by
  induction l with
  | nil => exact ⟨[], [], rfl, rfl, by simp, by simp⟩
  | cons x xs ih =>
    rw [List.pairwise_cons] at hs
    by_cases h : ev.created_at ≤ x.created_at
    · obtain ⟨l1, l2, he, hi, h1, h2⟩ := ih hs.2
      refine ⟨x :: l1, l2, by rw [List.cons_append, ← he], ?_, ?_, h2⟩
      · rw [insertDescStable, if_pos h, hi, List.cons_append]
      · intro y hy
        rcases List.mem_cons.mp hy with rfl | hy'
        · exact h
        · exact h1 y hy'
    · push_neg at h
      refine ⟨[], x :: xs, rfl, ?_, by simp, ?_⟩
      · rw [insertDescStable, if_neg (not_le.mpr h)]; rfl
      · intro y hy
        rcases List.mem_cons.mp hy with rfl | hy'
        · exact h
        · exact lt_of_le_of_lt (hs.1 y hy') h

/-- C1: for every delivery sequence, the merged Result Feed is sorted
descending by timestamp, contains no two events with the same id, delivering
an already-delivered event leaves the feed unchanged (exactly one copy), and
a genuinely new event is inserted stably: existing events keep their relative
positions and the new event lands after every event with an equal or greater
timestamp and before every event with a smaller one. -/
theorem mergeFeed_invariants (seq : List NostrEvent) :
    (mergeFeed seq).Pairwise (fun a b => b.created_at ≤ a.created_at) ∧
    ((mergeFeed seq).map (fun e => e.id)).Nodup ∧
    (∀ d, d ∈ seq → mergeFeed (seq ++ [d]) = mergeFeed seq) ∧
    (∀ d, (∀ e ∈ mergeFeed seq, e.id ≠ d.id) →
      ∃ l1 l2, mergeFeed seq = l1 ++ l2 ∧ mergeFeed (seq ++ [d]) = l1 ++ d :: l2 ∧
        (∀ x ∈ l1, d.created_at ≤ x.created_at) ∧ (∀ x ∈ l2, x.created_at < d.created_at)) := by
  refine ⟨(mergeFeed_inv seq).1, (mergeFeed_inv seq).2, ?_, ?_⟩
  · intro d hd
    rw [mergeFeed_snoc]
    obtain ⟨e, he, heq⟩ := foldl_insert_id_present seq [] d hd
    unfold insertEventIntoDescendingList
    have hany : ((mergeFeed seq).any fun x => x.id == d.id) = true := by
      rw [List.any_eq_true]
      exact ⟨e, he, by simp [heq]⟩
    rw [if_pos hany]
  · intro d hne
    rw [mergeFeed_snoc]
    have hany : (mergeFeed seq).any (fun x => x.id == d.id) = false := by
      rw [List.any_eq_false]
      intro x hx
      simp only [beq_iff_eq]
      exact hne x hx
    unfold insertEventIntoDescendingList
    rw [if_neg (by simp [hany])]
    exact insertDescStable_decomp (mergeFeed seq) d (mergeFeed_inv seq).1

/-- Witness for C1: delivering the same event twice leaves one copy, and a
fresh event with a distinct id is inserted stably. -/
theorem mergeFeed_invariants_witness :
    mergeFeed ([(⟨"e1", "p", 10, 1, [], "hello"⟩ : NostrEvent)] ++
        [(⟨"e1", "p", 10, 1, [], "hello"⟩ : NostrEvent)]) =
      mergeFeed [(⟨"e1", "p", 10, 1, [], "hello"⟩ : NostrEvent)] ∧
    ∃ l1 l2, mergeFeed [(⟨"e1", "p", 10, 1, [], "hello"⟩ : NostrEvent)] = l1 ++ l2 ∧
      mergeFeed ([(⟨"e1", "p", 10, 1, [], "hello"⟩ : NostrEvent)] ++
          [(⟨"e2", "p", 10, 1, [], "world"⟩ : NostrEvent)]) =
        l1 ++ (⟨"e2", "p", 10, 1, [], "world"⟩ : NostrEvent) :: l2 ∧
      (∀ x ∈ l1, (10 : Int) ≤ x.created_at) ∧ (∀ x ∈ l2, x.created_at < (10 : Int)) :=
  ⟨(mergeFeed_invariants [⟨"e1", "p", 10, 1, [], "hello"⟩]).2.2.1
      ⟨"e1", "p", 10, 1, [], "hello"⟩ (by simp),
   (mergeFeed_invariants [⟨"e1", "p", 10, 1, [], "hello"⟩]).2.2.2
      ⟨"e2", "p", 10, 1, [], "world"⟩ (by decide)⟩

/-! ## JS string primitives used by the page -/

/-- JS `String.prototype.trim`, on the character list of a string. -/
def trimList (s : List Char) : List Char :=
  ((s.dropWhile Char.isWhitespace).reverse.dropWhile Char.isWhitespace).reverse

/-- JS `String.prototype.toLowerCase`, character-wise. -/
def lowerList (s : List Char) : List Char := s.map Char.toLower

/-- JS `String.prototype.indexOf(needle, start)` for a character list:
the least index `i ≥ start` at which `needle` occurs in `hay`
(`none` when JS would return `-1`). -/
def indexOfFrom (hay needle : List Char) (start : Nat) : Option Nat :=
  (List.range (hay.length + 1 - needle.length)).find?
    (fun i => decide (start ≤ i) && ((hay.drop i).take needle.length == needle))

/-- JS `String.prototype.includes`: `indexOf ≥ 0`. -/
def includes (hay needle : List Char) : Bool := (indexOfFrom hay needle 0).isSome

lemma dropWhile_head_false (p : Char → Bool) :
    ∀ (l : List Char) (h : Char) (t : List Char), l.dropWhile p = h :: t → p h = false := by
  intro l
  induction l with
  | nil => intro h t hc; simp [List.dropWhile] at hc
  | cons a l ih =>
    intro h t hc
    by_cases hp : p a
    · rw [List.dropWhile_cons, if_pos hp] at hc
      exact ih h t hc
    · rw [List.dropWhile_cons, if_neg hp] at hc
      cases hc
      exact Bool.eq_false_iff.mpr hp

lemma dropWhile_eq_self_of_head (p : Char → Bool) (l : List Char)
    (h : ∀ (a : Char) (t : List Char), l = a :: t → p a = false) : l.dropWhile p = l := by
  cases l with
  | nil => rfl
  | cons a t => rw [List.dropWhile_cons, if_neg (by simp [h a t rfl])]

lemma dropWhile_idem (p : Char → Bool) (l : List Char) :
    (l.dropWhile p).dropWhile p = l.dropWhile p := by
  cases hc : l.dropWhile p with
  | nil => rfl
  | cons h t => rw [List.dropWhile_cons, if_neg (by simp [dropWhile_head_false p l h t hc])]

lemma dropWhile_suffix_ex (p : Char → Bool) :
    ∀ l : List Char, ∃ t, t ++ l.dropWhile p = l := by
  intro l
  induction l with
  | nil => exact ⟨[], rfl⟩
  | cons a l ih =>
    by_cases hp : p a
    · obtain ⟨t, ht⟩ := ih
      exact ⟨a :: t, by rw [List.dropWhile_cons, if_pos hp, List.cons_append, ht]⟩
    · exact ⟨[], by rw [List.dropWhile_cons, if_neg hp]; rfl⟩

lemma trimList_idem (s : List Char) : trimList (trimList s) = trimList s := by
  have hrev : (trimList s).reverse =
      ((s.dropWhile Char.isWhitespace).reverse).dropWhile Char.isWhitespace := by
    simp [trimList]
  have h1 : (trimList s).dropWhile Char.isWhitespace = trimList s := by
    apply dropWhile_eq_self_of_head
    intro a t hat
    obtain ⟨u, hu⟩ := dropWhile_suffix_ex Char.isWhitespace (s.dropWhile Char.isWhitespace).reverse
    have hX : s.dropWhile Char.isWhitespace = trimList s ++ u.reverse := by
      have h2 := congrArg List.reverse hu
      rw [List.reverse_append, List.reverse_reverse] at h2
      rw [← h2, ← hrev, List.reverse_reverse]
    rw [hat, List.cons_append] at hX
    exact dropWhile_head_false Char.isWhitespace s a _ hX
  calc trimList (trimList s)
      = (((trimList s).dropWhile Char.isWhitespace).reverse.dropWhile Char.isWhitespace).reverse := rfl
    _ = ((trimList s).reverse.dropWhile Char.isWhitespace).reverse := by rw [h1]
    _ = ((((s.dropWhile Char.isWhitespace).reverse).dropWhile Char.isWhitespace).dropWhile
          Char.isWhitespace).reverse := by rw [hrev]
    _ = (((s.dropWhile Char.isWhitespace).reverse).dropWhile Char.isWhitespace).reverse := by
          rw [dropWhile_idem]
    _ = trimList s := rfl

/-! ## Incremental Search / Highlight Engine (lines 35-44 and 166-194) -/

/-- One piece of the highlight decomposition (`{ text, isMatch }`). -/
structure HighlightPart where
  text : List Char
  isMatch : Bool
deriving DecidableEq

/-- The `while (index !== -1)` loop of `splitTextForHighlight` (lines 179-187).
`fuel` bounds the iteration count; `textLower.length + 1` is always enough
because `lastIndex` strictly increases (the query is non-empty here). -/
def splitLoop (text textLower queryLower : List Char) (qlen : Nat) :
    Nat → Nat → List HighlightPart
  | 0, _ => []
  | fuel + 1, lastIndex =>
    match indexOfFrom textLower queryLower lastIndex with
    | none => if lastIndex < text.length then [⟨text.drop lastIndex, false⟩] else []
    | some index =>
      (if lastIndex < index then [⟨(text.drop lastIndex).take (index - lastIndex), false⟩]
       else []) ++
        ⟨(text.drop index).take qlen, true⟩ ::
          splitLoop text textLower queryLower qlen fuel (index + qlen)

/-- `splitTextForHighlight` (lines 166-194): decompose `text` into match and
non-match pieces for the (trimmed, lowercased) query. -/
def splitTextForHighlight (text query : List Char) : List HighlightPart :=
  if trimList query = [] then [⟨text, false⟩]
  else if splitLoop text (lowerList text) (lowerList (trimList query)) query.length
      ((lowerList text).length + 1) 0 = [] then [⟨text, false⟩]
  else splitLoop text (lowerList text) (lowerList (trimList query)) query.length
    ((lowerList text).length + 1) 0

/-- The half-open offset spans `[start, stop)` of the match pieces of a
highlight decomposition, accumulated left to right. -/
def highlightSpans : List HighlightPart → Nat → List (Nat × Nat)
  | [], _ => []
  | p :: ps, off =>
    if p.isMatch then (off, off + p.text.length) :: highlightSpans ps (off + p.text.length)
    else highlightSpans ps (off + p.text.length)

/-- `filteredEvents` (lines 35-44): keep the kind-1 events and, when the
trimmed query is non-empty, those whose lowercased content contains the
lowercased query. -/
def filteredEvents (events : List NostrEvent) (searchQuery : String) : List NostrEvent :=
  if trimList searchQuery.toList = [] then events.filter (fun e => e.kind == 1)
  else
    (events.filter (fun e => e.kind == 1)).filter
      (fun e => includes (lowerList e.content.toList) (lowerList (trimList searchQuery.toList)))

lemma indexOfFrom_some_spec (hay needle : List Char) (start i : Nat)
    (h : indexOfFrom hay needle start = some i) :
    start ≤ i ∧ i + needle.length ≤ hay.length ∧ (hay.drop i).take needle.length = needle := by
  unfold indexOfFrom at h
  have hp := List.find?_some h
  have hm := List.mem_of_find?_eq_some h
  rw [List.mem_range] at hm
  rw [Bool.and_eq_true, decide_eq_true_eq, beq_iff_eq] at hp
  exact ⟨hp.1, by omega, hp.2⟩

lemma splitLoop_concat (text textLower queryLower : List Char) (qlen : Nat)
    (hlen : textLower.length = text.length) (hq : 1 ≤ qlen) (hql : queryLower ≠ []) :
    ∀ fuel lastIndex, textLower.length + 1 - lastIndex ≤ fuel →
      ((splitLoop text textLower queryLower qlen fuel lastIndex).map
          HighlightPart.text).flatten = text.drop lastIndex := by
  intro fuel
  induction fuel with
  | zero =>
    intro lastIndex h
    rw [splitLoop]
    have hge : text.length ≤ lastIndex := by omega
    simp [List.drop_eq_nil_of_le hge]
  | succ fuel ih =>
    intro lastIndex h
    cases hidx : indexOfFrom textLower queryLower lastIndex with
    | none =>
      simp only [splitLoop, hidx]
      by_cases hlt : lastIndex < text.length
      · simp [hlt]
      · have hge : text.length ≤ lastIndex := by omega
        simp [hlt, List.drop_eq_nil_of_le hge]
    | some index =>
      simp only [splitLoop, hidx]
      obtain ⟨h1, h2, h3⟩ := indexOfFrom_some_spec _ _ _ _ hidx
      have hql1 : 1 ≤ queryLower.length := List.length_pos.mpr hql
      have hiL : index < textLower.length := by omega
      have hrec := ih (index + qlen) (by omega)
      have hmid : (text.drop index).take qlen ++ text.drop (index + qlen) = text.drop index := by
        rw [← List.drop_drop, List.take_append_drop]
      by_cases hgap : lastIndex < index
      · rw [if_pos hgap]
        simp only [List.map_append, List.map_cons, List.map_nil, List.flatten_append,
          List.flatten_cons, List.flatten_nil, List.append_nil, hrec]
        rw [hmid]
        have hdd : (text.drop lastIndex).drop (index - lastIndex) = text.drop index := by
          rw [List.drop_drop]
          congr 1
          omega
        rw [← hdd, List.take_append_drop]
      · have heq : lastIndex = index := by omega
        rw [if_neg hgap]
        simp only [List.nil_append, List.map_cons, List.flatten_cons, hrec]
        rw [heq]
        exact hmid

/-- C9: the pieces produced by `splitTextForHighlight` concatenate, in order,
back to the input text: the highlight decomposition is a lossless partition
of the payload, for every text and every query. -/
theorem splitTextForHighlight_concat (text query : List Char) :
    ((splitTextForHighlight text query).map HighlightPart.text).flatten = text := by
  rw [splitTextForHighlight]
  by_cases htrim : trimList query = []
  · rw [if_pos htrim]; simp
  · rw [if_neg htrim]
    have hqne : query ≠ [] := by
      intro hq
      rw [hq] at htrim
      exact htrim rfl
    have hq : 1 ≤ query.length := List.length_pos.mpr hqne
    have hql : lowerList (trimList query) ≠ [] := by
      simp only [lowerList, ne_eq, List.map_eq_nil_iff]
      exact htrim
    have hlen : (lowerList text).length = text.length := by simp [lowerList]
    have hmain := splitLoop_concat text (lowerList text) (lowerList (trimList query))
      query.length hlen hq hql ((lowerList text).length + 1) 0 (by omega)
    rw [List.drop_zero] at hmain
    by_cases hparts : splitLoop text (lowerList text) (lowerList (trimList query)) query.length
        ((lowerList text).length + 1) 0 = []
    · rw [if_pos hparts]; simp
    · rw [if_neg hparts]; exact hmain

lemma highlightSpans_ne_nil_iff :
    ∀ (ps : List HighlightPart) (off : Nat),
      highlightSpans ps off ≠ [] ↔ ∃ p ∈ ps, p.isMatch = true := by
  intro ps
  induction ps with
  | nil => intro off; simp [highlightSpans]
  | cons p ps ih =>
    intro off
    cases hm : p.isMatch with
    | false =>
      simp only [highlightSpans, hm, Bool.false_eq_true, if_false, ih]
      constructor
      · rintro ⟨x, hx, hmx⟩
        exact ⟨x, List.mem_cons_of_mem p hx, hmx⟩
      · rintro ⟨x, hx, hmx⟩
        rcases List.mem_cons.mp hx with rfl | hx'
        · rw [hm] at hmx
          exact absurd hmx (by simp)
        · exact ⟨x, hx', hmx⟩
    | true =>
      simp only [highlightSpans, hm, if_true]
      constructor
      · intro _
        exact ⟨p, List.mem_cons_self p ps, hm⟩
      · intro _
        simp

lemma splitTextForHighlight_match_iff (text query : List Char) (h : trimList query ≠ []) :
    (∃ p ∈ splitTextForHighlight text query, p.isMatch = true) ↔
      includes (lowerList text) (lowerList (trimList query)) = true := by
  rw [splitTextForHighlight, if_neg h]
  unfold includes
  cases hidx : indexOfFrom (lowerList text) (lowerList (trimList query)) 0 with
  | none =>
    simp only [Option.isSome_none, Bool.false_eq_true, iff_false]
    intro hex
    obtain ⟨p, hp, hm⟩ := hex
    have hloopnone : splitLoop text (lowerList text) (lowerList (trimList query)) query.length
        ((lowerList text).length + 1) 0 =
        if 0 < text.length then [⟨text.drop 0, false⟩] else [] := by
      simp only [splitLoop, hidx]
    rw [hloopnone] at hp
    by_cases hlt : 0 < text.length
    · rw [if_pos hlt] at hp
      rw [if_neg (by simp)] at hp
      rw [List.mem_singleton] at hp
      rw [hp] at hm
      simp at hm
    · rw [if_neg hlt] at hp
      rw [if_pos rfl] at hp
      rw [List.mem_singleton] at hp
      rw [hp] at hm
      simp at hm
  | some index =>
    have hne : splitLoop text (lowerList text) (lowerList (trimList query)) query.length
        ((lowerList text).length + 1) 0 ≠ [] := by
      simp only [splitLoop, hidx]
      simp
    rw [if_neg hne]
    simp only [Option.isSome_some, iff_true]
    refine ⟨⟨(text.drop index).take query.length, true⟩, ?_, rfl⟩
    simp only [splitLoop, hidx]
    exact List.mem_append_right _ (List.mem_cons_self _ _)

/-- C6: with a non-empty (after trimming) query, an event appears in
`filteredEvents` exactly when it is a kind-1 event of the feed whose
highlight span list is non-empty; and for query "cat" over payload
"concatcat" the spans are exactly [3,6) and [6,9). -/
theorem filteredEvents_iff_highlightSpans :
    (∀ (events : List NostrEvent) (searchQuery : String) (e : NostrEvent),
      trimList searchQuery.toList ≠ [] →
      (e ∈ filteredEvents events searchQuery ↔
        e ∈ events ∧ e.kind = 1 ∧
          highlightSpans
            (splitTextForHighlight e.content.toList (trimList searchQuery.toList)) 0 ≠ [])) ∧
    highlightSpans (splitTextForHighlight "concatcat".toList "cat".toList) 0 = [(3, 6), (6, 9)] := by
  constructor
  · intro events searchQuery e hq
    rw [filteredEvents, if_neg hq]
    rw [List.mem_filter, List.mem_filter]
    have hiff := splitTextForHighlight_match_iff e.content.toList (trimList searchQuery.toList)
      (by rw [trimList_idem]; exact hq)
    rw [trimList_idem] at hiff
    rw [highlightSpans_ne_nil_iff]
    constructor
    · rintro ⟨⟨he, hk⟩, hinc⟩
      exact ⟨he, by simpa using hk, hiff.mpr hinc⟩
    · rintro ⟨he, hk, hspan⟩
      exact ⟨⟨he, by simpa using hk⟩, hiff.mp hspan⟩
  · decide

/-- Witness for C6 at a concrete feed, query "cat" and payload "concatcat". -/
theorem filteredEvents_iff_highlightSpans_witness :
    (⟨"w6", "p", 5, 1, [], "concatcat"⟩ : NostrEvent) ∈
        filteredEvents [⟨"w6", "p", 5, 1, [], "concatcat"⟩] "cat" ↔
      (⟨"w6", "p", 5, 1, [], "concatcat"⟩ : NostrEvent) ∈
          [(⟨"w6", "p", 5, 1, [], "concatcat"⟩ : NostrEvent)] ∧
        (⟨"w6", "p", 5, 1, [], "concatcat"⟩ : NostrEvent).kind = 1 ∧
        highlightSpans
          (splitTextForHighlight
            (⟨"w6", "p", 5, 1, [], "concatcat"⟩ : NostrEvent).content.toList
            (trimList ("cat" : String).toList)) 0 ≠ [] :=
  filteredEvents_iff_highlightSpans.1 [⟨"w6", "p", 5, 1, [], "concatcat"⟩] "cat"
    ⟨"w6", "p", 5, 1, [], "concatcat"⟩ (by decide)

/-! ## Identity Normalizer (lines 53-72) -/

/-- The result shape of the external `nip19.decode` (an external collaborator
per the spec: the Identity Codec).  The code reads `.type` and `.data`. -/
structure Nip19Result where
  type : String
  data : String

/-- The test of the regex `/^[0-9a-fA-F]{64}$/`. -/
def isHex64 (l : List Char) : Bool :=
  l.length == 64 && l.all (fun c => c.isDigit || ('a' ≤ c && c ≤ 'f') || ('A' ≤ c && c ≤ 'F'))

/-- JS `String.prototype.startsWith` on character lists. -/
def startsWithList (s p : List Char) : Bool := s.take p.length == p

/-- `normalizePubkey` (lines 53-72), parametrised by the external `nip19.decode`
(`none` models a decode that throws).  A decode that succeeds with a type other
than `npub` falls through to the final throw, as in the source. -/
def normalizePubkey (decode : String → Option Nip19Result) (input : String) :
    Except String String :=
  let trimmed := (trimList input.toList).asString
  if isHex64 trimmed.toList then Except.ok trimmed
  else if startsWithList trimmed.toList "npub".toList then
    match decode trimmed with
    | none => Except.error "無効なnpub形式です"
    | some decoded =>
      if decoded.type = "npub" then Except.ok decoded.data
      else Except.error "公開鍵はnpub形式またはhex形式（64文字）で入力してください"
  else Except.error "公開鍵はnpub形式またはhex形式（64文字）で入力してください"

lemma toList_asString (l : List Char) : l.asString.toList = l := rfl

lemma data_asString (l : List Char) : l.asString.data = l := rfl

/-! ## Relay Set Resolver (lines 46-51 and 74-87) -/

/-- The fallback content relays (line 46). -/
def defaultRelays : List String := ["wss://relay.damus.io", "wss://nos.lol", "wss://yabu.me/"]

/-- The discovery relays (lines 47-51). -/
def metadataRelays : List String :=
  ["wss://purplepag.es/", "wss://user.kindpag.es/", "wss://directory.yabu.me/"]

/-- The fused `filter`/`map` pass of `extractWriteRelays` (lines 79-84),
parametrised by the external `URL.canParse`.  The JS predicate
`tag[0] === 'r' && tag[1].startsWith('wss://') && URL.canParse(tag[1]) &&
tag[2] !== 'read'` throws a `TypeError` when `tag[0]` is `'r'` but the tag
has no second element (`tag[1]` is `undefined`), which the embedding
models as `Except.error`. -/
def writeRelaysOfTags (canParse : String → Bool) : List (List String) → Except String (List String)
  | [] => Except.ok []
  | tag :: rest =>
    if tag[0]? = some "r" then
      match tag[1]? with
      | none => Except.error "TypeError: tag[1] is undefined"
      | some url =>
        if startsWithList url.toList "wss://".toList && canParse url
            && !(tag[2]? == some "read") then
          (writeRelaysOfTags canParse rest).map (fun tail => url :: tail)
        else writeRelaysOfTags canParse rest
    else writeRelaysOfTags canParse rest

/-- `extractWriteRelays` (lines 74-87). -/
def extractWriteRelays (canParse : String → Bool) (event : Option NostrEvent) :
    Except String (List String) :=
  match event with
  | none => Except.ok defaultRelays
  | some e =>
    if e.kind ≠ 10002 then Except.ok defaultRelays
    else
      (writeRelaysOfTags canParse e.tags).map
        (fun writeRelays => if writeRelays.length > 0 then writeRelays else defaultRelays)

/-! ## Discovery phase of fetchEvents (lines 118-130) -/

/-- The state mutated by the discovery loop: the profile map (`Map` embedded
as an insertion-ordered association list) and the relay-list snapshot. -/
structure DiscoveryState where
  profileEvents : List (String × NostrEvent)
  relayListEvent : Option NostrEvent
deriving DecidableEq

/-- JS `Map.prototype.set`: replace in place if the key exists, else append. -/
def mapSet (m : List (String × NostrEvent)) (k : String) (v : NostrEvent) :
    List (String × NostrEvent) :=
  if m.any (fun p => p.1 == k) then m.map (fun p => if p.1 == k then (k, v) else p)
  else m ++ [(k, v)]

/-- One iteration of the discovery loop (lines 118-130): a kind-0 event
updates the profile map keeping the newer timestamp per author; a kind-10002
event replaces the relay-list snapshot when absent or strictly older.
No author comparison appears in the source. -/
def discoveryStep (st : DiscoveryState) (ev : NostrEvent) : DiscoveryState :=
  if ev.kind = 0 then
    match (st.profileEvents.find? (fun p => p.1 == ev.pubkey)) with
    | none => { st with profileEvents := mapSet st.profileEvents ev.pubkey ev }
    | some existing =>
      if existing.2.created_at < ev.created_at then
        { st with profileEvents := mapSet st.profileEvents ev.pubkey ev }
      else st
  else if ev.kind = 10002 then
    match st.relayListEvent with
    | none => { st with relayListEvent := some ev }
    | some r => if r.created_at < ev.created_at then { st with relayListEvent := some ev } else st
  else st

/-- The whole discovery loop over the delivered metadata events. -/
def discoveryFold (events : List NostrEvent) : DiscoveryState :=
  events.foldl discoveryStep ⟨[], none⟩

/-! ## Cancellation Controller (lines 16 and 157-160) -/

/-- The `AbortController` slot of the page, embedded as token identifiers:
`controller` is the id of the token currently bound to a fetch, `nextId` a
supply of fresh ids, `signaled` which token ids have been aborted. -/
structure CancelState where
  nextId : Nat
  controller : Nat
  signaled : Nat → Bool

/-- Line 16: `let controller = new AbortController()`. -/
def initialCancelState : CancelState := ⟨1, 0, fun _ => false⟩

/-- `abort()` (lines 157-160): signal the current token, then replace the
slot with a brand-new controller. -/
def abortOp (s : CancelState) : CancelState :=
  { nextId := s.nextId + 1
    controller := s.nextId
    signaled := fun i => if i = s.controller then true else s.signaled i }

/-- Well-formedness of the controller slot: the current token was allocated,
and tokens not yet allocated are unsignaled. -/
def CancelInv (s : CancelState) : Prop :=
  s.controller < s.nextId ∧ ∀ i, s.nextId ≤ i → s.signaled i = false

/-! ## fetchEvents (lines 89-155) -/

/-- The observable outcome of one `fetchEvents` call.  `shutdownCalls` counts
executions of `await fetcher.shutdown()`; `fetcherInited` records whether
`NostrFetcher.init()` ran. -/
structure FetchResult where
  events : List NostrEvent
  profileEvents : List (String × NostrEvent)
  relayListEvent : Option NostrEvent
  error : Option String
  fetcherInited : Bool
  shutdownCalls : Nat
  loading : Bool

/-- `fetchEvents` (lines 89-155) as a function of its non-deterministic
environment: `decode`/`canParse` are the external collaborators,
`discoveryEvents` the metadata documents delivered before `discoveryError`
(if any) is thrown by the discovery iterator, and `contentEvents` the posts
delivered before the content iterator either throws `contentError`, is
canceled, or completes (the latter three differ only in `error`).  The
`try`/`catch`/`finally` shape makes every exit path pass through the
`finally` block, which is the `+ 1` on `shutdownCalls`. -/
def fetchEvents (decode : String → Option Nip19Result) (canParse : String → Bool)
    (publicKey : String) (discoveryEvents : List NostrEvent) (discoveryError : Option String)
    (contentEvents : List NostrEvent) (contentError : Option String) : FetchResult :=
  if trimList publicKey.toList = [] then
    { events := [], profileEvents := [], relayListEvent := none,
      error := some "公開鍵を入力してください", fetcherInited := false,
      shutdownCalls := 0, loading := false }
  else
    let tryResult : FetchResult :=
      match normalizePubkey decode publicKey with
      | Except.error msg =>
        { events := [], profileEvents := [], relayListEvent := none, error := some msg,
          fetcherInited := true, shutdownCalls := 0, loading := true }
      | Except.ok _pubkey =>
        let st := discoveryFold discoveryEvents
        match discoveryError with
        | some msg =>
          { events := [], profileEvents := st.profileEvents,
            relayListEvent := st.relayListEvent, error := some msg,
            fetcherInited := true, shutdownCalls := 0, loading := true }
        | none =>
          match extractWriteRelays canParse st.relayListEvent with
          | Except.error msg =>
            { events := [], profileEvents := st.profileEvents,
              relayListEvent := st.relayListEvent, error := some msg,
              fetcherInited := true, shutdownCalls := 0, loading := true }
          | Except.ok _writeRelays =>
            { events := mergeFeed contentEvents, profileEvents := st.profileEvents,
              relayListEvent := st.relayListEvent, error := contentError,
              fetcherInited := true, shutdownCalls := 0, loading := true }
    { tryResult with shutdownCalls := tryResult.shutdownCalls + 1, loading := false }

lemma writeRelaysOfTags_all_read (canParse : String → Bool) :
    ∀ tags : List (List String),
      (∀ tag ∈ tags, tag[0]? = some "r" → tag[2]? = some "read") →
      writeRelaysOfTags canParse tags = Except.ok [] := by
  intro tags
  induction tags with
  | nil => intro _; rfl
  | cons tag rest ih =>
    intro hall
    have hrest := ih (fun t ht h0 => hall t (List.mem_cons_of_mem tag ht) h0)
    by_cases h0 : tag[0]? = some "r"
    · have h2 := hall tag (List.mem_cons_self tag rest) h0
      have hlen2 : 2 < tag.length := by
        rcases List.getElem?_eq_some_iff.mp h2 with ⟨hl, _⟩
        exact hl
      cases h1 : tag[1]? with
      | none =>
        exfalso
        have := List.getElem?_eq_none_iff.mp h1
        omega
      | some url =>
        have hcond : ¬((startsWithList url.toList "wss://".toList && canParse url
            && !(tag[2]? == some "read")) = true) := by
          simp [h2]
        simp only [writeRelaysOfTags, if_pos h0, h1]
        rw [if_neg hcond]
        exact hrest
    · simp only [writeRelaysOfTags, if_neg h0]
      exact hrest

lemma writeRelaysOfTags_total (canParse : String → Bool) :
    ∀ tags : List (List String),
      (∀ tag ∈ tags, tag[0]? = some "r" → (tag[1]?).isSome = true) →
      ∃ l, writeRelaysOfTags canParse tags = Except.ok l := by
  intro tags
  induction tags with
  | nil => intro _; exact ⟨[], rfl⟩
  | cons tag rest ih =>
    intro hall
    obtain ⟨l, hl⟩ := ih (fun t ht h0 => hall t (List.mem_cons_of_mem tag ht) h0)
    by_cases h0 : tag[0]? = some "r"
    · cases h1 : tag[1]? with
      | none =>
        exfalso
        have := hall tag (List.mem_cons_self tag rest) h0
        rw [h1] at this
        simp at this
      | some url =>
        by_cases hcond : (startsWithList url.toList "wss://".toList && canParse url
            && !(tag[2]? == some "read")) = true
        · refine ⟨url :: l, ?_⟩
          simp only [writeRelaysOfTags, if_pos h0, h1, if_pos hcond, hl, Except.map]
        · refine ⟨l, ?_⟩
          simp only [writeRelaysOfTags, if_pos h0, h1]
          rw [if_neg hcond]
          exact hl
    · refine ⟨l, ?_⟩
      simp only [writeRelaysOfTags, if_neg h0]
      exact hl

/-- C2: `extractWriteRelays` falls back to `defaultRelays` when the document
is absent, when it is not a kind-10002 document, when the filter pass keeps
no entry, and in particular when every relay entry is marked "read"; and any
successfully returned relay list is non-empty. -/
theorem extractWriteRelays_defaults (canParse : String → Bool) (event : Option NostrEvent) :
    (event = none → extractWriteRelays canParse event = Except.ok defaultRelays) ∧
    (∀ e, event = some e → e.kind ≠ 10002 →
      extractWriteRelays canParse event = Except.ok defaultRelays) ∧
    (∀ e, event = some e → writeRelaysOfTags canParse e.tags = Except.ok [] →
      extractWriteRelays canParse event = Except.ok defaultRelays) ∧
    (∀ e, event = some e →
      (∀ tag ∈ e.tags, tag[0]? = some "r" → tag[2]? = some "read") →
      extractWriteRelays canParse event = Except.ok defaultRelays) ∧
    (∀ l, extractWriteRelays canParse event = Except.ok l → l ≠ []) := by
  refine ⟨?_, ?_, ?_, ?_, ?_⟩
  · intro h
    rw [h]
    rfl
  · intro e he hk
    rw [he]
    simp only [extractWriteRelays, if_pos hk]
  · intro e he hfil
    rw [he]
    by_cases hk : e.kind ≠ 10002
    · simp only [extractWriteRelays, if_pos hk]
    · simp only [extractWriteRelays, if_neg hk, hfil, Except.map]
      rfl
  · intro e he hall
    rw [he]
    by_cases hk : e.kind ≠ 10002
    · simp only [extractWriteRelays, if_pos hk]
    · simp only [extractWriteRelays, if_neg hk,
        writeRelaysOfTags_all_read canParse e.tags hall, Except.map]
      rfl
  · intro l hl
    cases event with
    | none =>
      simp only [extractWriteRelays] at hl
      cases hl
      decide
    | some e =>
      by_cases hk : e.kind ≠ 10002
      · simp only [extractWriteRelays, if_pos hk] at hl
        cases hl
        decide
      · simp only [extractWriteRelays, if_neg hk] at hl
        cases hw : writeRelaysOfTags canParse e.tags with
        | error msg => rw [hw] at hl; simp [Except.map] at hl
        | ok wr =>
          rw [hw] at hl
          simp only [Except.map, Except.ok.injEq] at hl
          by_cases hwr : wr.length > 0
          · rw [if_pos hwr] at hl
            rw [← hl]
            intro hnil
            rw [hnil] at hwr
            simp at hwr
          · rw [if_neg hwr] at hl
            rw [← hl]
            decide

/-- Witness for C2: a relay-list whose only relay entry is marked "read"
resolves to the default relays. -/
theorem extractWriteRelays_defaults_witness :
    extractWriteRelays (fun _ => true)
        (some ⟨"idr", "pkr", 1, 10002, [["r", "wss://a.example", "read"]], ""⟩) =
      Except.ok defaultRelays :=
  (extractWriteRelays_defaults (fun _ => true)
      (some ⟨"idr", "pkr", 1, 10002, [["r", "wss://a.example", "read"]], ""⟩)).2.2.2.1
    ⟨"idr", "pkr", 1, 10002, [["r", "wss://a.example", "read"]], ""⟩ rfl (by decide)

/-- C10: `extractWriteRelays` is total when every `"r"` tag carries a second
element, and a relay-list containing the tag `["r"]` alone makes the filter
predicate dereference `undefined` and throw instead of skipping the entry. -/
theorem extractWriteRelays_undefined_second_element :
    (∀ (canParse : String → Bool) (e : NostrEvent),
      (∀ tag ∈ e.tags, tag[0]? = some "r" → (tag[1]?).isSome = true) →
      ∃ l, extractWriteRelays canParse (some e) = Except.ok l) ∧
    extractWriteRelays (fun _ => true) (some ⟨"idb", "pkb", 1, 10002, [["r"]], ""⟩) =
      Except.error "TypeError: tag[1] is undefined" := by
  constructor
  · intro canParse e hall
    by_cases hk : e.kind ≠ 10002
    · exact ⟨defaultRelays, by simp only [extractWriteRelays, if_pos hk]⟩
    · obtain ⟨l, hl⟩ := writeRelaysOfTags_total canParse e.tags hall
      refine ⟨if l.length > 0 then l else defaultRelays, ?_⟩
      simp only [extractWriteRelays, if_neg hk, hl, Except.map]
  · rfl

/-- Witness for C10: with well-formed `"r"` tags the resolver succeeds. -/
theorem extractWriteRelays_undefined_second_element_witness :
    ∃ l, extractWriteRelays (fun _ => true)
        (some ⟨"idw", "pkw", 1, 10002, [["r", "wss://a.example", "write"]], ""⟩) =
      Except.ok l :=
  extractWriteRelays_undefined_second_element.1 (fun _ => true)
    ⟨"idw", "pkw", 1, 10002, [["r", "wss://a.example", "write"]], ""⟩ (by decide)

/-- Counterexample for C3: the discovery loop retains a relay-list snapshot
authored by "author-target", then a kind-10002 document by the different
author "author-foreign" with a newer timestamp overwrites it — no author
filter exists in the loop. -/
theorem discovery_foreign_author_overwrites :
    (discoveryFold
        [⟨"id-target", "author-target", 100, 10002, [], ""⟩,
         ⟨"id-foreign", "author-foreign", 200, 10002, [], ""⟩]).relayListEvent =
      some ⟨"id-foreign", "author-foreign", 200, 10002, [], ""⟩ ∧
    ("author-foreign" : String) ≠ "author-target" := by
  constructor
  · rfl
  · decide

/-- C3 (amended): the discovery loop applies no author filter — a kind-10002
document replaces the retained relay-list snapshot exactly when none is
retained or the retained one has a strictly older timestamp, regardless of
the document's author; author scoping rests solely on the upstream query. -/
theorem discoveryStep_relayList_no_author_filter (st : DiscoveryState) (ev : NostrEvent)
    (hk : ev.kind = 10002) :
    (st.relayListEvent = none → (discoveryStep st ev).relayListEvent = some ev) ∧
    (∀ r, st.relayListEvent = some r → r.created_at < ev.created_at →
      (discoveryStep st ev).relayListEvent = some ev) ∧
    (∀ r, st.relayListEvent = some r → ev.created_at ≤ r.created_at →
      (discoveryStep st ev).relayListEvent = some r) := by
  have hk0 : ¬(ev.kind = 0) := by simp [hk]
  refine ⟨?_, ?_, ?_⟩
  · intro hnone
    simp only [discoveryStep, if_neg hk0, if_pos hk, hnone]
  · intro r hr hlt
    simp only [discoveryStep, if_neg hk0, if_pos hk, hr, if_pos hlt]
  · intro r hr hle
    simp only [discoveryStep, if_neg hk0, if_pos hk, hr]
    rw [if_neg (not_lt.mpr hle)]
    exact hr

/-- Witness for C3's amended statement at a concrete state and document. -/
theorem discoveryStep_relayList_no_author_filter_witness :
    (discoveryStep ⟨[], none⟩ ⟨"idn", "pkn", 7, 10002, [], ""⟩).relayListEvent =
      some ⟨"idn", "pkn", 7, 10002, [], ""⟩ :=
  (discoveryStep_relayList_no_author_filter ⟨[], none⟩ ⟨"idn", "pkn", 7, 10002, [], ""⟩ rfl).1 rfl

lemma startsWith_npub_not_hex (l : List Char) (h : startsWithList l "npub".toList = true) :
    isHex64 l = false := by
  have htake : l.take 4 = ['n', 'p', 'u', 'b'] := by
    have h4 : ("npub".toList) = ['n', 'p', 'u', 'b'] := rfl
    rw [startsWithList, h4, beq_iff_eq] at h
    simpa using h
  have hmem : 'n' ∈ l := List.take_subset 4 l (by rw [htake]; simp)
  by_cases hall : l.all
      (fun c => c.isDigit || ('a' ≤ c && c ≤ 'f') || ('A' ≤ c && c ≤ 'F')) = true
  · exact absurd (List.all_eq_true.mp hall 'n' hmem) (by decide)
  · rw [isHex64, Bool.not_eq_true] at *
    rw [hall, Bool.and_false]

/-- Counterexample for C4: a 64-character uppercase hex input is returned
unchanged, hence not in lowercase canonical case. -/
theorem normalizePubkey_uppercase_not_canonical :
    normalizePubkey (fun _ => none)
        "AAAAAAAAAAAAAAAAAAAAAAAAAAAAAAAAAAAAAAAAAAAAAAAAAAAAAAAAAAAAAAAA" =
      Except.ok "AAAAAAAAAAAAAAAAAAAAAAAAAAAAAAAAAAAAAAAAAAAAAAAAAAAAAAAAAAAAAAAA" ∧
    lowerList
        ("AAAAAAAAAAAAAAAAAAAAAAAAAAAAAAAAAAAAAAAAAAAAAAAAAAAAAAAAAAAAAAAA" : String).toList ≠
      ("AAAAAAAAAAAAAAAAAAAAAAAAAAAAAAAAAAAAAAAAAAAAAAAAAAAAAAAAAAAAAAAA" : String).toList := by
  constructor
  · rfl
  · decide

/-- C4 (amended): for every input whose trimmed form is exactly 64 hex
characters (either case), `normalizePubkey` succeeds and returns the trimmed
string unchanged — preserving the input's letter case rather than
canonicalizing it. -/
theorem normalizePubkey_hex_unchanged (decode : String → Option Nip19Result) (input : String)
    (h : isHex64 (trimList input.toList) = true) :
    normalizePubkey decode input = Except.ok (trimList input.toList).asString := by
  simp only [normalizePubkey, toList_asString]
  rw [if_pos h]

/-- Witness for C4's amended statement on a lowercase hex key. -/
theorem normalizePubkey_hex_unchanged_witness :
    normalizePubkey (fun _ => none)
        "0123456789abcdef0123456789abcdef0123456789abcdef0123456789abcdef" =
      Except.ok
        (trimList
          ("0123456789abcdef0123456789abcdef0123456789abcdef0123456789abcdef" : String).toList).asString :=
  normalizePubkey_hex_unchanged (fun _ => none)
    "0123456789abcdef0123456789abcdef0123456789abcdef0123456789abcdef" (by decide)

/-- C5: for every external decoder, an input whose trimmed form starts with
"npub" and whose decode fails yields the malformed-npub error; an input that
is neither 64 hex characters nor "npub"-prefixed yields the
unrecognized-format error; and every success is either the exact trimmed hex
string or the payload of a successful "npub" decode — never a truncated,
padded or partial match. -/
theorem normalizePubkey_failure_cases (decode : String → Option Nip19Result) (input : String) :
    (startsWithList (trimList input.toList) "npub".toList = true →
      decode (trimList input.toList).asString = none →
      normalizePubkey decode input = Except.error "無効なnpub形式です") ∧
    (isHex64 (trimList input.toList) = false →
      startsWithList (trimList input.toList) "npub".toList = false →
      normalizePubkey decode input =
        Except.error "公開鍵はnpub形式またはhex形式（64文字）で入力してください") ∧
    (∀ out, normalizePubkey decode input = Except.ok out →
      (isHex64 (trimList input.toList) = true ∧ out = (trimList input.toList).asString) ∨
      (∃ d, decode (trimList input.toList).asString = some d ∧ d.type = "npub" ∧
        out = d.data)) := by
  refine ⟨?_, ?_, ?_⟩
  · intro hs hd
    have hhexT : isHex64 (trimList input.toList) = false :=
      startsWith_npub_not_hex (trimList input.toList) hs
    have hhexD : isHex64 (trimList input.data) = false := hhexT
    have hsD : startsWithList (trimList input.data) ['n', 'p', 'u', 'b'] = true := hs
    have hdD : decode (trimList input.data).asString = none := hd
    simp [normalizePubkey, toList_asString, data_asString, hhexT, hhexD, hs, hsD, hd, hdD]
  · intro hh hs
    have hhD : isHex64 (trimList input.data) = false := hh
    have hsD : startsWithList (trimList input.data) ['n', 'p', 'u', 'b'] = false := hs
    simp [normalizePubkey, toList_asString, data_asString, hh, hhD, hs, hsD]
  · intro out hout
    simp only [normalizePubkey, toList_asString] at hout
    by_cases hh : isHex64 (trimList input.toList) = true
    · rw [if_pos hh] at hout
      simp only [Except.ok.injEq] at hout
      exact Or.inl ⟨hh, hout.symm⟩
    · rw [if_neg hh] at hout
      by_cases hs : startsWithList (trimList input.toList) "npub".toList = true
      · rw [if_pos hs] at hout
        cases hd : decode (trimList input.toList).asString with
        | none =>
          rw [hd] at hout
          exact Except.noConfusion hout
        | some d =>
          simp only [hd] at hout
          by_cases ht : d.type = "npub"
          · rw [if_pos ht] at hout
            simp only [Except.ok.injEq] at hout
            exact Or.inr ⟨d, rfl, ht, hout.symm⟩
          · rw [if_neg ht] at hout
            exact Except.noConfusion hout
      · rw [if_neg hs] at hout
        exact Except.noConfusion hout

/-- Witness for C5: a failing decode after an "npub" prefix, and an input in
neither recognized format. -/
theorem normalizePubkey_failure_cases_witness :
    normalizePubkey (fun _ => none) "npubZZZ" = Except.error "無効なnpub形式です" ∧
    normalizePubkey (fun _ => none) "hello" =
      Except.error "公開鍵はnpub形式またはhex形式（64文字）で入力してください" :=
  ⟨(normalizePubkey_failure_cases (fun _ => none) "npubZZZ").1 (by decide) rfl,
   (normalizePubkey_failure_cases (fun _ => none) "hello").2.1 (by decide) (by decide)⟩

/-- C7: under the controller-slot invariant, `abort()` signals the token
currently bound to the running fetch, installs a fresh unsignaled token (so a
fetch started afterwards is never pre-canceled), and preserves the invariant
— in particular an `abort()` with no fetch consuming the old token still
leaves the next fetch's token unsignaled. -/
theorem abortOp_fresh (s : CancelState) (h : CancelInv s) :
    (abortOp s).signaled s.controller = true ∧
    (abortOp s).signaled (abortOp s).controller = false ∧
    CancelInv (abortOp s) := by
  obtain ⟨h1, h2⟩ := h
  refine ⟨by simp [abortOp], ?_, ?_, ?_⟩
  · show (if s.nextId = s.controller then true else s.signaled s.nextId) = false
    rw [if_neg (by omega)]
    exact h2 s.nextId (le_refl s.nextId)
  · show s.nextId < s.nextId + 1
    omega
  · intro i hi
    show (if i = s.controller then true else s.signaled i) = false
    have hni : s.nextId + 1 ≤ i := hi
    rw [if_neg (by omega)]
    exact h2 i (by omega)

/-- Witness for C7 from the initial controller state of the page. -/
theorem abortOp_fresh_witness :
    (abortOp initialCancelState).signaled initialCancelState.controller = true ∧
    (abortOp initialCancelState).signaled (abortOp initialCancelState).controller = false ∧
    CancelInv (abortOp initialCancelState) :=
  abortOp_fresh initialCancelState ⟨by decide, fun i _ => rfl⟩

/-- C8: whenever a fetch actually starts (non-blank input — the blank-input
guard returns before the transport handle is created), every exit path of
`fetchEvents` — success, thrown error (invalid identity, discovery failure,
resolver TypeError, content failure) or cancellation — runs the `finally`
release step exactly once and clears the loading flag. -/
theorem fetchEvents_shutdown_once (decode : String → Option Nip19Result)
    (canParse : String → Bool) (publicKey : String) (discoveryEvents : List NostrEvent)
    (discoveryError : Option String) (contentEvents : List NostrEvent)
    (contentError : Option String) (h : trimList publicKey.toList ≠ []) :
    (fetchEvents decode canParse publicKey discoveryEvents discoveryError contentEvents
        contentError).shutdownCalls = 1 ∧
    (fetchEvents decode canParse publicKey discoveryEvents discoveryError contentEvents
        contentError).fetcherInited = true ∧
    (fetchEvents decode canParse publicKey discoveryEvents discoveryError contentEvents
        contentError).loading = false := by
  simp only [fetchEvents, if_neg h]
  cases hn : normalizePubkey decode publicKey with
  | error msg => simp [hn]
  | ok pk =>
    cases discoveryError with
    | some msg => simp [hn]
    | none =>
      cases hw : extractWriteRelays canParse (discoveryFold discoveryEvents).relayListEvent with
      | error msg => simp [hn, hw]
      | ok wr => simp [hn, hw]

/-- Witness for C8: a run that throws InvalidIdentity still shuts down once. -/
theorem fetchEvents_shutdown_once_witness :
    (fetchEvents (fun _ => none) (fun _ => true) "hello" [] none [] none).shutdownCalls = 1 ∧
    (fetchEvents (fun _ => none) (fun _ => true) "hello" [] none [] none).fetcherInited = true ∧
    (fetchEvents (fun _ => none) (fun _ => true) "hello" [] none [] none).loading = false :=
  fetchEvents_shutdown_once (fun _ => none) (fun _ => true) "hello" [] none [] none (by decide)
